import Mathlib

set_option maxRecDepth 100000

/-!
Shallow embedding of the incremental lint-caching core of the
obsidian-textlint-highlighter plugin, together with proofs about the
claims of its specification.

Modelling conventions:
* A document is represented by its list of lines, i.e. the result of the
  JavaScript expression `content.split('\n')` (always nonempty in JS; the
  definitions below never depend on nonemptiness).
* JavaScript numbers holding line indices, counts and timestamps are
  modelled as `Nat`.  `Math.max(0, i - n)` coincides with truncated `Nat`
  subtraction `i - n`.
* The analyzer (`lintFunction` / `processFunction`) is a parameter; where
  the code awaits a promise the embedding applies the function.
* The ratio test `changedLines / totalLines > 0.5` (float division in the
  source) is embedded as the exact comparison `totalLines < 2 * changedLines`.
-/

/-- One reported lint issue, after `src/types.ts` `TextlintMessage`.
The `fix` payload is carried verbatim by every function modelled here and
is represented opaquely by an optional `(range, text)` triple. -/
structure TextlintMessage where
  line : Nat
  column : Nat := 1
  endLine : Option Nat := none
  endColumn : Option Nat := none
  message : String := ""
  ruleId : String := ""
  severity : Nat := 1
  fix : Option (Nat × Nat × String) := none
  deriving DecidableEq, Repr

/-- A changed line region `{ start, end }` (0-based, inclusive) of
`DifferentialProcessor.ts`.  The source field `end` is a Lean keyword and
is called `stop` here. -/
structure Region where
  start : Nat
  stop : Nat
  deriving DecidableEq, Repr

/-- Whether index `i` is a differing line between the two documents, as
compared by the loop of `findChangedRegions`: a line read past the end of
either document counts as the empty string (`oldLines[i] || ''`). -/
def diffAt (oldLines newLines : List String) (i : Nat) : Prop :=
  oldLines.getD i "" ≠ newLines.getD i ""

instance (oldLines newLines : List String) (i : Nat) :
    Decidable (diffAt oldLines newLines i) := by
  unfold diffAt; infer_instance

/-- One iteration of the scan loop of
`DifferentialProcessor.findChangedRegions` (source lines 30-47); the state
is the optional currently open region together with the accumulated list
of closed regions. -/
def findChangedRegionsStep (oldLines newLines : List String) (contextLines : Nat)
    (st : Option Region × List Region) (i : Nat) : Option Region × List Region :=
  if diffAt oldLines newLines i then
    match st.1 with
    | none => (some ⟨i - contextLines, i + contextLines⟩, st.2)
    | some cur => (some ⟨cur.start, i + contextLines⟩, st.2)
  else
    match st.1 with
    | some cur => if cur.stop < i then (none, st.2 ++ [cur]) else st
    | none => st

/-- Tail of `DifferentialProcessor.mergeOverlappingRegions`: `last` is the
mutable last element of the `merged` array, `acc` the (reversed) regions
already before it. -/
def mergeOverlappingRegionsAux : Region → List Region → List Region → List Region
  | last, acc, [] => (last :: acc).reverse
  | last, acc, current :: rest =>
      if current.start ≤ last.stop then
        mergeOverlappingRegionsAux ⟨last.start, max last.stop current.stop⟩ acc rest
      else
        mergeOverlappingRegionsAux current (last :: acc) rest

/-- `DifferentialProcessor.mergeOverlappingRegions` (source lines 56-75). -/
def mergeOverlappingRegions : List Region → List Region
  | [] => []
  | r :: rest => mergeOverlappingRegionsAux r [] rest

/-- `DifferentialProcessor.findChangedRegions` (source lines 19-54). -/
def findChangedRegions (oldLines newLines : List String)
    (contextLines : Nat := 5) : List Region :=
  let maxLen := max oldLines.length newLines.length
  let st := (List.range maxLen).foldl
    (findChangedRegionsStep oldLines newLines contextLines) (none, [])
  mergeOverlappingRegions (st.2 ++ st.1.toList)

/-- `DifferentialProcessor.extractRegionContent` (source lines 77-90):
`lines.slice(region.start, region.end + 1)` for each region, concatenated. -/
def extractRegionContent (lines : List String) (regions : List Region) : List String :=
  (regions.map (fun r => (lines.drop r.start).take (r.stop + 1 - r.start))).flatten

/-- The region search of `DifferentialProcessor.adjustLineNumbers`
(source lines 162-169): the first region whose own length bounds the
message line decides the adjustment; with no match the line is unchanged. -/
def adjustedLineFor (regions : List Region) (line : Nat) : Nat :=
  match regions.find? (fun r => decide (line ≤ r.stop - r.start + 1)) with
  | some r => r.start + line
  | none => line

/-- The per-message body of `DifferentialProcessor.adjustLineNumbers`
(source lines 161-175).  `message.endLine ? adjustedLine : undefined`
is falsy JavaScript both for an absent and for a zero `endLine`. -/
def adjustMessage (regions : List Region) (m : TextlintMessage) : TextlintMessage :=
  let adjustedLine := adjustedLineFor regions m.line
  { m with
    line := adjustedLine
    endLine := match m.endLine with
      | some e => if e = 0 then none else some adjustedLine
      | none => none }

/-- `DifferentialProcessor.adjustLineNumbers` (source lines 157-177). -/
def adjustLineNumbers (messages : List TextlintMessage) (regions : List Region) :
    List TextlintMessage :=
  messages.map (adjustMessage regions)

/-- The filter predicate of `DifferentialProcessor.mergeResults`
(source lines 185-189): the message line falls inside some changed region. -/
def messageInRegion (regions : List Region) (line : Nat) : Bool :=
  regions.any (fun r => decide (r.start ≤ line ∧ line ≤ r.stop))

/-- The final `.sort((a, b) => a.line - b.line)` of the source, a stable
sort by ascending line (stable sorts by the same key agree on every
input, so a stable insertion sort embeds the engine's stable sort
exactly). -/
def sortByLine (messages : List TextlintMessage) : List TextlintMessage :=
  messages.insertionSort (fun a b => a.line ≤ b.line)

/-- `DifferentialProcessor.mergeResults` (source lines 179-193). -/
def mergeResults (oldMessages newMessages : List TextlintMessage)
    (changedRegions : List Region) : List TextlintMessage :=
  let unchangedMessages :=
    oldMessages.filter (fun m => !(messageInRegion changedRegions m.line))
  sortByLine (unchangedMessages ++ newMessages)

/-- One entry of `DifferentialProcessor.previousResults`.  The source also
stores a `timestamp: Date.now()` field that no code path ever reads; it is
omitted. -/
structure CachedResult where
  content : List String
  messages : List TextlintMessage
  deriving DecidableEq, Repr

/-- Result of one `processChangedRegionsOnly` call: the returned message
list, the cache entry stored for the file afterwards, and the list of
texts passed to `lintFunction` (empty when the analyzer was not invoked). -/
structure DifferentialOutcome where
  messages : List TextlintMessage
  cache : CachedResult
  lintCalls : List (List String)
  deriving DecidableEq, Repr

/-- `DifferentialProcessor.processChangedRegionsOnly` (source lines
92-155), with the per-file map entry for the current file passed in as
`cached` and the updated entry returned. -/
def processChangedRegionsOnly (cached : Option CachedResult)
    (newContent : List String)
    (lintFunction : List String → List TextlintMessage) : DifferentialOutcome :=
  match cached with
  | none =>
      let messages := lintFunction newContent
      ⟨messages, ⟨newContent, messages⟩, [newContent]⟩
  | some c =>
      let changedRegions := findChangedRegions c.content newContent
      if changedRegions = [] then
        ⟨c.messages, c, []⟩
      else
        let totalLines := newContent.length
        let changedLines :=
          changedRegions.foldl (fun sum r => sum + (r.stop - r.start + 1)) 0
        if totalLines < 2 * changedLines then
          let messages := lintFunction newContent
          ⟨messages, ⟨newContent, messages⟩, [newContent]⟩
        else
          let regionContent := extractRegionContent newContent changedRegions
          let regionMessages := lintFunction regionContent
          let adjustedMessages := adjustLineNumbers regionMessages changedRegions
          let mergedMessages := mergeResults c.messages adjustedMessages changedRegions
          ⟨mergedMessages, ⟨newContent, mergedMessages⟩, [regionContent]⟩

/-- One entry of the result cache, after `src/types.ts` `CacheEntry<T>`. -/
structure CacheEntry (T : Type) where
  data : T
  timestamp : Nat
  hash : Option String
  deriving DecidableEq, Repr

/-- The `Cache<T>` class of `src/utils/Cache.ts`: the backing `Map` is an
insertion-ordered association list with unique keys, and `Date.now()` is
passed explicitly as `now` to each query. -/
structure Cache (T : Type) where
  entries : List (String × CacheEntry T)
  ttl : Nat
  deriving DecidableEq, Repr

/-- `this.cache.get(key)` on the backing map. -/
def Cache.find? (c : Cache T) (key : String) : Option (CacheEntry T) :=
  (c.entries.find? (fun p => decide (p.1 = key))).map (fun p => p.2)

/-- `this.cache.delete(key)` on the backing map. -/
def Cache.deleteKey (c : Cache T) (key : String) : Cache T :=
  ⟨c.entries.filter (fun p => !decide (p.1 = key)), c.ttl⟩

/-- `Cache.set` (source lines 11-17): a `Map.set` replaces the entry in
place when the key exists and appends otherwise. -/
def Cache.set (c : Cache T) (key : String) (value : T) (now : Nat)
    (hash : Option String) : Cache T :=
  if c.entries.any (fun p => decide (p.1 = key)) then
    ⟨c.entries.map (fun p => if p.1 = key then (key, ⟨value, now, hash⟩) else p), c.ttl⟩
  else
    ⟨c.entries ++ [(key, ⟨value, now, hash⟩)], c.ttl⟩

/-- `Cache.get` (source lines 19-30), returning the looked-up value and
the possibly evicted cache. -/
def Cache.get (c : Cache T) (key : String) (now : Nat) : Option T × Cache T :=
  match c.find? key with
  | none => (none, c)
  | some entry =>
      if c.ttl < now - entry.timestamp then (none, c.deleteKey key)
      else (some entry.data, c)

/-- `Cache.has` (source lines 32-43). -/
def Cache.hasKey (c : Cache T) (key : String) (now : Nat) : Bool × Cache T :=
  match c.find? key with
  | none => (false, c)
  | some entry =>
      if c.ttl < now - entry.timestamp then (false, c.deleteKey key)
      else (true, c)

/-- `Cache.isValidByHash` (source lines 54-65).  The guard
`!entry.hash` is falsy JavaScript both for an absent and for an
empty-string hash, and it runs before the expiry check. -/
def Cache.isValidByHash (c : Cache T) (key : String) (currentHash : String)
    (now : Nat) : Bool × Cache T :=
  match c.find? key with
  | none => (false, c)
  | some entry =>
      match entry.hash with
      | none => (false, c)
      | some h =>
          if h = "" then (false, c)
          else if c.ttl < now - entry.timestamp then (false, c.deleteKey key)
          else (decide (h = currentHash), c)

/-- `toInt32` conversion applied by JavaScript bitwise operators: the
value is wrapped to the signed 32-bit range. -/
def toInt32 (n : Int) : Int := (n + 2147483648) % 4294967296 - 2147483648

/-- `generateSimpleHash` of `src/utils/Cache.ts` (source lines 110-121),
the deterministic fallback digest of `generateContentHash` (whose primary
branch is the host's SHA-256 and is environment-dependent).  Characters
are hashed by code point. -/
def generateSimpleHash (content : String) : String :=
  if content.length = 0 then "0"
  else
    let hash := content.data.foldl
      (fun h c => toInt32 (toInt32 (h * 32) - h + c.toNat)) 0
    toString hash ++ "_" ++ toString content.length

/-- `ProcessingStrategy` of `src/utils/AdaptiveProcessor.ts`:
`maxFileSize = none` models `Infinity`; the constant
`enabledRules: ['all']` field is never consulted and is omitted. -/
structure ProcessingStrategy where
  maxFileSize : Option Nat
  processingTimeout : Nat
  chunkSize : Option Nat
  deriving DecidableEq, Repr, Inhabited

/-- `AdaptiveProcessor.STRATEGIES` (source lines 11-35). -/
def STRATEGIES : List ProcessingStrategy :=
  [⟨some 1000, 15000, none⟩,
   ⟨some 5000, 30000, some 1000⟩,
   ⟨some 10000, 45000, some 500⟩,
   ⟨none, 60000, some 200⟩]

/-- `AdaptiveProcessor.getOptimalStrategy` (source lines 37-47): the first
strategy whose `maxFileSize` exceeds the line count, else the last. -/
def getOptimalStrategy (content : List String) : ProcessingStrategy :=
  let lineCount := content.length
  match STRATEGIES.find?
      (fun s => match s.maxFileSize with
        | some m => decide (lineCount < m)
        | none => true) with
  | some s => s
  | none => STRATEGIES.getLast!

/-- A lint result `{ messages, filePath }` as merged by
`AdaptiveProcessor.mergeChunkResults`; `filePath = none` models an object
built without the `filePath` property. -/
structure LintResult where
  messages : List TextlintMessage
  filePath : Option String
  deriving DecidableEq, Repr

/-- Denotational behaviour of one awaited `processFunction(text)` call:
it settles with a value after `afterMs` milliseconds, rejects, or never
settles. -/
inductive AnalyzerOutcome where
  | settles (afterMs : Nat) (value : LintResult)
  | throws
  | diverges
  deriving DecidableEq, Repr

/-- Outcome of a `processWithKuromojiOptimization` run: the promise
resolves with a value, rejects, or never settles. -/
inductive RunOutcome where
  | ok (value : LintResult)
  | error
  | hangs
  deriving DecidableEq, Repr

/-- The chunking loop of `AdaptiveProcessor.createProcessingChunks`,
one step per `i += chunkSize` iteration, bounded by a fuel argument. -/
def createProcessingChunksGo (chunkSize : Nat) : Nat → List String → List (List String)
  | _, [] => []
  | 0, _ => []
  | fuel + 1, lines =>
      lines.take chunkSize :: createProcessingChunksGo chunkSize fuel (lines.drop chunkSize)

/-- `AdaptiveProcessor.createProcessingChunks` (source lines 84-93),
written with a fuel argument (`lines.length` steps always suffice for a
positive `chunkSize`) so that it reduces structurally.  A zero `chunkSize`
makes the source loop forever; the guard clause below stands in for that
case and is never reached under the hypotheses of the theorems, since the
strategies only carry positive chunk sizes. -/
def createProcessingChunks (lines : List String) (chunkSize : Nat) :
    List (List String) :=
  if chunkSize = 0 then [lines]
  else createProcessingChunksGo chunkSize lines.length lines

/-- The per-message re-basing of `AdaptiveProcessor.mergeChunkResults`
(source lines 163-167): both line fields move by the accumulated line
offset; `msg.endLine ? msg.endLine + lineOffset : undefined` is falsy
JavaScript both for an absent and for a zero `endLine`. -/
def shiftChunkMessage (lineOffset : Nat) (msg : TextlintMessage) : TextlintMessage :=
  { msg with
    line := msg.line + lineOffset
    endLine := match msg.endLine with
      | some e => if e = 0 then none else some (e + lineOffset)
      | none => none }

/-- The per-item body of the offset-accumulating loop of
`AdaptiveProcessor.mergeChunkResults` (source lines 160-171); the state is
`(mergedMessages, lineOffset)`. -/
def mergeChunkStep (st : List TextlintMessage × Nat) (item : LintResult × Nat) :
    List TextlintMessage × Nat :=
  (st.1 ++ item.1.messages.map (shiftChunkMessage st.2), st.2 + item.2)

/-- `AdaptiveProcessor.mergeChunkResults` (source lines 153-177), taking
the surviving `{ result, lines }` pairs. -/
def mergeChunkResults (results : List (LintResult × Nat)) : LintResult :=
  match results with
  | [] => ⟨[], none⟩
  | first :: _ =>
      let merged := (results.foldl mergeChunkStep ([], 0)).1
      ⟨sortByLine merged, some (first.1.filePath.getD "")⟩

/-- One iteration of the chunk loop of
`processWithKuromojiOptimization` (source lines 113-134): the chunk call
is raced against a timer of `processingTimeout / numChunks` milliseconds
(the comparison `afterMs * numChunks > processingTimeout` is the exact
form of `afterMs > processingTimeout / numChunks`); a chunk that rejects
or times out is skipped. -/
def chunkAttempt (processFunction : List String → AnalyzerOutcome)
    (processingTimeout numChunks : Nat) (cd : List String × Nat) :
    Option (LintResult × Nat) :=
  match processFunction cd.1 with
  | .settles afterMs value =>
      if processingTimeout < afterMs * numChunks then none else some (value, cd.2)
  | .throws => none
  | .diverges => none

/-- `AdaptiveProcessor.processWithKuromojiOptimization` (source lines
95-151), instantiated at the lint-result type; the second component lists
the texts handed to `processFunction`. -/
def processWithKuromojiOptimization (content : List String)
    (processFunction : List String → AnalyzerOutcome)
    (strategy : ProcessingStrategy) : RunOutcome × List (List String) :=
  let lineCount := content.length
  if lineCount < 1000 then
    -- Small files: a plain `await processFunction(content)` with no timer.
    match processFunction content with
    | .settles _ value => (.ok value, [content])
    | .throws => (.error, [content])
    | .diverges => (.hangs, [content])
  else
    match strategy.chunkSize with
    | some chunkSize =>
        let chunks := createProcessingChunks content chunkSize
        let chunkData := chunks.map (fun chunk => (chunk, chunk.length))
        let results := chunkData.filterMap
          (chunkAttempt processFunction strategy.processingTimeout chunkData.length)
        (.ok (mergeChunkResults results), chunks)
    | none =>
        match processFunction content with
        | .settles afterMs value =>
            if strategy.processingTimeout < afterMs then (.error, [content])
            else (.ok value, [content])
        | .throws => (.error, [content])
        | .diverges => (.error, [content])

/-- The mutable plugin fields consulted by
`TextlintHighlightPlugin.lintCurrentFile`. -/
structure PluginState where
  lastProcessedFile : Option String
  lastContentHash : Option String
  resultCache : Cache (List TextlintMessage)
  deriving DecidableEq, Repr

/-- Outcome of one `lintCurrentFile` run: the updated plugin fields, the
message list handed to `applyResults` (highlights and result view), and
the number of analyzer invocations. -/
structure LintRunResult where
  state : PluginState
  applied : List TextlintMessage
  analyzerRuns : Nat
  deriving DecidableEq, Repr

/-- `TextlintHighlightPlugin.lintCurrentFile` (source lines 270-416) from
the point where the file content has been read, with `generateContentHash`
abstracted as `hashFn` and the whole analyzer pipeline (rule loading,
`processWithKuromojiOptimization`, kernel message conversion) abstracted
as `runAnalysis`.  Every branch ends in `applyResults`; no branch consults
the document again after `runAnalysis` returns. -/
def lintCurrentFile (st : PluginState) (filePath : String) (content : String)
    (hashFn : String → String)
    (runAnalysis : String → List TextlintMessage) (now : Nat) : LintRunResult :=
  let contentHash := hashFn content
  let cacheKey := filePath ++ "_" ++ contentHash
  if st.lastProcessedFile = some filePath ∧ st.lastContentHash = some contentHash then
    -- Duplicate-execution check (source lines 310-329).
    match st.resultCache.get cacheKey now with
    | (some cachedResult, cache1) =>
        ⟨⟨st.lastProcessedFile, st.lastContentHash, cache1⟩, cachedResult, 0⟩
    | (none, cache1) =>
        ⟨⟨st.lastProcessedFile, st.lastContentHash, cache1⟩, [], 0⟩
  else
    -- Result-cache check (source lines 332-347).
    match st.resultCache.isValidByHash cacheKey contentHash now with
    | (true, cache1) =>
        match cache1.get cacheKey now with
        | (some cachedResult, cache2) =>
            ⟨⟨some filePath, some contentHash, cache2⟩, cachedResult, 0⟩
        | (none, cache2) =>
            -- Fall through to the miss path (source has no early return here).
            let messages := runAnalysis content
            let cache3 := cache2.set cacheKey messages now (some contentHash)
            ⟨⟨some filePath, some contentHash, cache3⟩, messages, 1⟩
    | (false, cache1) =>
        let messages := runAnalysis content
        let cache2 := cache1.set cacheKey messages now (some contentHash)
        ⟨⟨some filePath, some contentHash, cache2⟩, messages, 1⟩

/-! ### Specification-side comparators

The definitions below follow the words of the specification (not the
source) and exist only to be compared with the source-derived functions
above. -/

/-- Modelled from the spec: the true line in the new text of the
extracted-text position `p` (1-based), for extraction chunks taken from
`lines` at `regions`: the chunk containing `p` determines the line by
adding that region's start offset to the position within the chunk. -/
def specTrueLine (lines : List String) : List Region → Nat → Nat
  | [], p => p
  | r :: rest, p =>
      let len := ((lines.drop r.start).take (r.stop + 1 - r.start)).length
      if p ≤ len then r.start + p
      else specTrueLine lines rest (p - len)

/-- Modelled from the spec: remap one analyzer finding on the extracted
text back to its true position in the new text. -/
def specRemapMessage (lines : List String) (regions : List Region)
    (m : TextlintMessage) : TextlintMessage :=
  { m with line := specTrueLine lines regions m.line }

/-- Modelled from the spec: the merged result of the differential
small-edit path — cached findings outside every changed region carried
over verbatim, analyzer findings on the extracted text remapped to their
true lines, sorted by line ascending. -/
def specDifferentialMerge (lines : List String) (oldMessages : List TextlintMessage)
    (regionMessages : List TextlintMessage) (regions : List Region) :
    List TextlintMessage :=
  sortByLine
    ((oldMessages.filter (fun m => !(messageInRegion regions m.line))) ++
      regionMessages.map (specRemapMessage lines regions))

/-- The single-region differential remap: the line moves by the region's
start offset, and (as in the source) a present, nonzero `endLine` is
replaced by the adjusted start line. -/
def singleRegionRemap (r : Region) (m : TextlintMessage) : TextlintMessage :=
  { m with
    line := r.start + m.line
    endLine := match m.endLine with
      | some e => if e = 0 then none else some (r.start + m.line)
      | none => none }

/-- Modelled from the spec: re-base each chunk's findings by the
cumulative line count of the preceding chunks, concatenate, and sort by
line ascending.  `chunkFindings` pairs each chunk's findings with that
chunk's line count. -/
def specChunkRebase (chunkFindings : List (List TextlintMessage × Nat)) :
    List TextlintMessage :=
  let offsets := (chunkFindings.map (fun p => p.2)).scanl (fun a b => a + b) 0
  sortByLine
    ((chunkFindings.zip offsets).map (fun p =>
        p.1.1.map (shiftChunkMessage p.2))).flatten

/-! ### Helper lemmas -/

theorem findChangedRegionsStep_self (lines : List String) (N : Nat) (i : Nat) :
    findChangedRegionsStep lines lines N (none, []) i = (none, []) := by
  simp [findChangedRegionsStep, diffAt]

theorem findChangedRegions_self (lines : List String) (N : Nat) :
    findChangedRegions lines lines N = [] := by
  unfold findChangedRegions
  have h : ∀ l : List Nat,
      l.foldl (findChangedRegionsStep lines lines N) (none, []) = (none, []) := by
    intro l
    induction l with
    | nil => rfl
    | cons a l ih =>
        rw [List.foldl_cons, findChangedRegionsStep_self]
        exact ih
  simp only [findChangedRegions, h]
  rfl

theorem deleteKey_find?_eq_none (c : Cache T) (key : String) :
    (c.deleteKey key).find? key = none := by
  unfold Cache.deleteKey Cache.find?
  rw [List.find?_eq_none.mpr]
  · rfl
  · intro x hx
    rcases List.mem_filter.mp hx with ⟨-, hpx⟩
    simpa using hpx

/-! ### Claim theorems -/

/-- C5: calling `processChangedRegionsOnly` a second time with the text
already stored in the snapshot cache returns the cached findings
unchanged, leaves the cache entry untouched, and performs no analyzer
invocation at all. -/
theorem processChangedRegionsOnly_noop_second_call
    (content : List String) (lint1 lint2 : List String → List TextlintMessage) :
    processChangedRegionsOnly
        (some (processChangedRegionsOnly none content lint1).cache) content lint2 =
      ⟨(processChangedRegionsOnly none content lint1).messages,
       (processChangedRegionsOnly none content lint1).cache, []⟩ := by
  simp [processChangedRegionsOnly, findChangedRegions_self]

/-- C4: when a prior snapshot exists and the changed regions span a
majority of the new text's lines (`changedLines / totalLines > 0.5`),
`processChangedRegionsOnly` performs a full analysis — the analyzer
receives the complete new text and nothing else — and replaces the stored
snapshot and findings with the new full results. -/
theorem processChangedRegionsOnly_majority_full
    (c : CachedResult) (newContent : List String)
    (lint : List String → List TextlintMessage)
    (hne : findChangedRegions c.content newContent ≠ [])
    (hmaj : newContent.length <
      2 * (findChangedRegions c.content newContent).foldl
            (fun sum r => sum + (r.stop - r.start + 1)) 0) :
    processChangedRegionsOnly (some c) newContent lint =
      ⟨lint newContent, ⟨newContent, lint newContent⟩, [newContent]⟩ := by
  simp only [processChangedRegionsOnly]
  rw [if_neg hne, if_pos hmaj]

/-- C4 witness: a one-line document whose single line changed; the single
padded region spans six lines, a majority of the one-line text. -/
theorem processChangedRegionsOnly_majority_full_witness :
    (findChangedRegions (CachedResult.content ⟨["a"], []⟩) ["b"] ≠ [] ∧
      (["b"] : List String).length <
        2 * (findChangedRegions (CachedResult.content ⟨["a"], []⟩) ["b"]).foldl
              (fun sum r => sum + (r.stop - r.start + 1)) 0) ∧
    processChangedRegionsOnly (some ⟨["a"], []⟩) ["b"] (fun _ => [{ line := 1 }]) =
      ⟨[{ line := 1 }], ⟨["b"], [{ line := 1 }]⟩, [["b"]]⟩ := by
  refine ⟨⟨by decide, by decide⟩, ?_⟩
  exact processChangedRegionsOnly_majority_full ⟨["a"], []⟩ ["b"]
    (fun _ => [{ line := 1 }]) (by decide) (by decide)

/-- C6: an expired cache entry is absent for both `get` and
`isValidByHash` and is evicted, even when its stored digest matches the
query digest — expiry takes precedence over a digest match. -/
theorem cache_ttl_expiry_precedes_digest_match {T : Type}
    (c : Cache T) (key currentHash : String) (entry : CacheEntry T) (now : Nat)
    (hfind : c.find? key = some entry)
    (hhash : entry.hash = some currentHash)
    (hne : currentHash ≠ "")
    (hexp : c.ttl < now - entry.timestamp) :
    c.get key now = (none, c.deleteKey key) ∧
    (c.deleteKey key).find? key = none ∧
    c.isValidByHash key currentHash now = (false, c.deleteKey key) := by
  refine ⟨?_, deleteKey_find?_eq_none c key, ?_⟩
  · simp [Cache.get, hfind, hexp]
  · simp [Cache.isValidByHash, hfind, hhash, hne, hexp]

/-- C6 witness: a five-minute-old entry queried at `ttl = 100`
milliseconds with the matching digest `h`. -/
theorem cache_ttl_expiry_precedes_digest_match_witness :
    ((Cache.find? ⟨[("k", ⟨42, 0, some "h"⟩)], 100⟩ "k" =
        some (⟨42, 0, some "h"⟩ : CacheEntry Nat) ∧
      ("h" : String) ≠ "" ∧ (100 : Nat) < 300000 - 0) ∧
    Cache.get (⟨[("k", ⟨42, 0, some "h"⟩)], 100⟩ : Cache Nat) "k" 300000 =
        (none, Cache.deleteKey ⟨[("k", ⟨42, 0, some "h"⟩)], 100⟩ "k") ∧
      (Cache.deleteKey (⟨[("k", ⟨42, 0, some "h"⟩)], 100⟩ : Cache Nat) "k").find? "k" =
        none ∧
      Cache.isValidByHash (⟨[("k", ⟨42, 0, some "h"⟩)], 100⟩ : Cache Nat) "k" "h" 300000 =
        (false, Cache.deleteKey ⟨[("k", ⟨42, 0, some "h"⟩)], 100⟩ "k")) := by
  refine ⟨⟨by decide, by decide, by decide⟩, ?_⟩
  exact cache_ttl_expiry_precedes_digest_match _ "k" "h" ⟨42, 0, some "h"⟩ 300000
    (by decide) rfl (by decide) (by decide)

/-- C9: the differential line-number adjustment replaces a present
(nonzero, 1-based) `endLine` by the adjusted start line itself, so the
start-to-end span of a multi-line finding is not preserved. -/
theorem adjustLineNumbers_collapses_endLine
    (regions : List Region) (m : TextlintMessage) (e : Nat)
    (he : m.endLine = some e) (hpos : 0 < e) :
    ∃ m', adjustLineNumbers [m] regions = [m'] ∧ m'.endLine = some m'.line := by
  refine ⟨adjustMessage regions m, rfl, ?_⟩
  have h0 : e ≠ 0 := Nat.pos_iff_ne_zero.mp hpos
  simp [adjustMessage, he, h0]

/-- C9 witness: a finding spanning lines 2-4 adjusted through the region
list `[⟨5, 10⟩]`. -/
theorem adjustLineNumbers_collapses_endLine_witness :
    (({ line := 2, endLine := some 4 } : TextlintMessage).endLine = some 4 ∧
      (0 : Nat) < 4) ∧
    ∃ m', adjustLineNumbers [{ line := 2, endLine := some 4 }] [⟨5, 10⟩] = [m'] ∧
      m'.endLine = some m'.line := by
  refine ⟨⟨rfl, by decide⟩, ?_⟩
  exact adjustLineNumbers_collapses_endLine [⟨5, 10⟩]
    { line := 2, endLine := some 4 } 4 rfl (by decide)

/-- C8 counterexample: a one-line document is processed on the small-file
path; the analyzer only settles 999999999 ms later, far beyond the
strategy's 15000 ms `processingTimeout`, yet the run resolves with the
analyzer's value instead of rejecting — the small-file direct call is not
raced against any timer. -/
theorem small_file_direct_call_not_time_bounded :
    (processWithKuromojiOptimization ["hello"]
        (fun _ => .settles 999999999 ⟨[], some "f"⟩) ⟨some 1000, 15000, none⟩).1 =
      .ok ⟨[], some "f"⟩ ∧ (15000 : Nat) < 999999999 := by
  exact ⟨rfl, by decide⟩

/-- C8 amended: a document below the fixed 1000-line threshold
(independent of the strategy's chunk size) bypasses chunking and is
passed to the analyzer in a single call on the whole text; that direct
call is not bounded by the strategy's timeout — whenever the analyzer
settles, after arbitrarily many milliseconds `t`, its value is returned. -/
theorem processWithKuromojiOptimization_small_file_direct
    (content : List String) (fn : List String → AnalyzerOutcome)
    (strategy : ProcessingStrategy) (t : Nat) (v : LintResult)
    (hsmall : content.length < 1000)
    (hsettle : fn content = .settles t v) :
    processWithKuromojiOptimization content fn strategy = (.ok v, [content]) := by
  unfold processWithKuromojiOptimization
  rw [if_pos hsmall, hsettle]

/-- C8 amended witness: a one-line document whose analyzer settles 20000
ms in, past the 15000 ms timeout of the selected strategy, still resolves
directly. -/
theorem processWithKuromojiOptimization_small_file_direct_witness :
    ((["hello"] : List String).length < 1000 ∧
      (fun _ => AnalyzerOutcome.settles 20000 ⟨[{ line := 1 }], none⟩ :
          List String → AnalyzerOutcome) ["hello"] =
        .settles 20000 ⟨[{ line := 1 }], none⟩) ∧
    processWithKuromojiOptimization ["hello"]
        (fun _ => .settles 20000 ⟨[{ line := 1 }], none⟩) ⟨some 1000, 15000, none⟩ =
      (.ok ⟨[{ line := 1 }], none⟩, [["hello"]]) := by
  refine ⟨⟨by decide, rfl⟩, ?_⟩
  exact processWithKuromojiOptimization_small_file_direct ["hello"] _
    ⟨some 1000, 15000, none⟩ 20000 ⟨[{ line := 1 }], none⟩ (by decide) rfl

/-- C10: when a document is chunked and every chunk call fails (rejects,
never settles, or settles only after its time slice), the run still
resolves successfully with an empty findings list rather than rejecting. -/
theorem processWithKuromojiOptimization_all_chunks_fail
    (content : List String) (fn : List String → AnalyzerOutcome)
    (strategy : ProcessingStrategy) (n : Nat)
    (hbig : 1000 ≤ content.length)
    (hchunk : strategy.chunkSize = some n)
    (hfail : ∀ chunk ∈ createProcessingChunks content n,
      chunkAttempt fn strategy.processingTimeout
        (createProcessingChunks content n).length (chunk, chunk.length) = none) :
    (processWithKuromojiOptimization content fn strategy).1 = .ok ⟨[], none⟩ := by
  have hnil : List.filterMap
      (chunkAttempt fn strategy.processingTimeout
        (((createProcessingChunks content n).map (fun chunk => (chunk, chunk.length))).length))
      ((createProcessingChunks content n).map (fun chunk => (chunk, chunk.length))) = [] := by
    rw [List.filterMap_eq_nil_iff]
    intro a ha
    rcases List.mem_map.mp ha with ⟨chunk, hmem, rfl⟩
    rw [List.length_map]
    exact hfail chunk hmem
  simp only [processWithKuromojiOptimization, hchunk]
  rw [if_neg (by omega)]
  simp only [hnil]
  rfl

/-- C10 witness: a 1000-line document in one chunk whose single analyzer
call rejects; the run returns `{ messages := [] }`. -/
theorem processWithKuromojiOptimization_all_chunks_fail_witness :
    (1000 ≤ (List.replicate 1000 "x" : List String).length ∧
      (⟨some 5000, 30000, some 1000⟩ : ProcessingStrategy).chunkSize = some 1000 ∧
      ∀ chunk ∈ createProcessingChunks (List.replicate 1000 "x") 1000,
        chunkAttempt (fun _ => .throws) 30000
          (createProcessingChunks (List.replicate 1000 "x") 1000).length
          (chunk, chunk.length) = none) ∧
    (processWithKuromojiOptimization (List.replicate 1000 "x") (fun _ => .throws)
        ⟨some 5000, 30000, some 1000⟩).1 = .ok ⟨[], none⟩ := by
  refine ⟨⟨by decide, rfl, by decide⟩, ?_⟩
  exact processWithKuromojiOptimization_all_chunks_fail (List.replicate 1000 "x")
    (fun _ => .throws) ⟨some 5000, 30000, some 1000⟩ 1000 (by decide) rfl (by decide)

/-- C3 counterexample: a run that analyzed content `"a"` (digest `97_1`)
applies its completed result even though at completion time the document
reads `"b"`, whose digest `98_1` differs — the embedding of
`lintCurrentFile` consumes no completion-time state at all, so no
superseded-result guard can fire. -/
theorem lintCurrentFile_applies_stale_result :
    (lintCurrentFile ⟨none, none, ⟨[], 300000⟩⟩ "note.md" "a" generateSimpleHash
        (fun _ => [{ line := 1 }]) 0).applied = [{ line := 1 }] ∧
      generateSimpleHash "b" ≠ generateSimpleHash "a" := by
  exact ⟨by decide, by decide⟩

/-- C3 amended: on the cache-miss path, `lintCurrentFile` always hands the
freshly computed result to `applyResults` (highlights and result view);
no digest is recomputed when the analysis completes, so the applied result
is determined by the content read at the start of the run alone. -/
theorem lintCurrentFile_miss_applies_unconditionally
    (st : PluginState) (filePath content : String)
    (hashFn : String → String) (runAnalysis : String → List TextlintMessage)
    (now : Nat)
    (hdup : ¬(st.lastProcessedFile = some filePath ∧
      st.lastContentHash = some (hashFn content)))
    (hvalid : (st.resultCache.isValidByHash (filePath ++ "_" ++ hashFn content)
        (hashFn content) now).1 = false) :
    (lintCurrentFile st filePath content hashFn runAnalysis now).applied =
        runAnalysis content ∧
      (lintCurrentFile st filePath content hashFn runAnalysis now).analyzerRuns = 1 := by
  unfold lintCurrentFile
  rw [if_neg hdup]
  rcases hx : st.resultCache.isValidByHash (filePath ++ "_" ++ hashFn content)
      (hashFn content) now with ⟨b, cache1⟩
  rw [hx] at hvalid
  simp only at hvalid
  subst hvalid
  simp [hx]

/-- C3 amended witness: a fresh plugin state analysing `"a"`. -/
theorem lintCurrentFile_miss_applies_unconditionally_witness :
    ((¬((⟨none, none, ⟨[], 300000⟩⟩ : PluginState).lastProcessedFile = some "note.md" ∧
        (⟨none, none, ⟨[], 300000⟩⟩ : PluginState).lastContentHash =
          some (generateSimpleHash "a"))) ∧
      ((⟨none, none, ⟨[], 300000⟩⟩ : PluginState).resultCache.isValidByHash
          ("note.md" ++ "_" ++ generateSimpleHash "a") (generateSimpleHash "a") 0).1 =
        false) ∧
    (lintCurrentFile ⟨none, none, ⟨[], 300000⟩⟩ "note.md" "a" generateSimpleHash
        (fun _ => [{ line := 1 }]) 0).applied = (fun _ => [{ line := 1 }]) "a" ∧
      (lintCurrentFile ⟨none, none, ⟨[], 300000⟩⟩ "note.md" "a" generateSimpleHash
        (fun _ => [{ line := 1 }]) 0).analyzerRuns = 1 := by
  refine ⟨⟨by decide, by decide⟩, ?_⟩
  exact lintCurrentFile_miss_applies_unconditionally ⟨none, none, ⟨[], 300000⟩⟩
    "note.md" "a" generateSimpleHash (fun _ => [{ line := 1 }]) 0
    (by decide) (by decide)

/-- Recursive form of the spec-side re-basing: each chunk's findings are
shifted by the running offset, which then grows by that chunk's line
count. -/
def specChunkConcat (chunkFindings : List (List TextlintMessage × Nat))
    (off : Nat) : List TextlintMessage :=
  match chunkFindings with
  | [] => []
  | (msgs, lines) :: rest =>
      msgs.map (shiftChunkMessage off) ++ specChunkConcat rest (off + lines)

theorem specChunkRebase_eq_concat (chunkFindings : List (List TextlintMessage × Nat)) :
    specChunkRebase chunkFindings = sortByLine (specChunkConcat chunkFindings 0) := by
  suffices h : ∀ (cf : List (List TextlintMessage × Nat)) (off : Nat),
      ((cf.zip ((cf.map (fun p => p.2)).scanl (fun a b => a + b) off)).map
        (fun p => p.1.1.map (shiftChunkMessage p.2))).flatten = specChunkConcat cf off by
    simp only [specChunkRebase, h]
  intro cf
  induction cf with
  | nil => intro off; rfl
  | cons hd tl ih =>
      intro off
      rcases hd with ⟨msgs, lines⟩
      simp only [List.map_cons, List.scanl_cons, List.singleton_append,
        List.zip_cons_cons, List.flatten_cons, specChunkConcat]
      rw [ih]

theorem mergeChunkStep_foldl (rs : List (LintResult × Nat))
    (acc : List TextlintMessage) (off : Nat) :
    (rs.foldl mergeChunkStep (acc, off)).1 =
      acc ++ specChunkConcat (rs.map (fun p => (p.1.messages, p.2))) off := by
  induction rs generalizing acc off with
  | nil => simp [specChunkConcat]
  | cons hd tl ih =>
      rw [List.foldl_cons]
      show (tl.foldl mergeChunkStep
        (acc ++ hd.1.messages.map (shiftChunkMessage off), off + hd.2)).1 = _
      rw [ih]
      simp [specChunkConcat, List.append_assoc]

theorem filterMap_eq_map_of_some {α β : Type} (l : List α) (f : α → Option β)
    (g : α → β) (h : ∀ a ∈ l, f a = some (g a)) : l.filterMap f = l.map g := by
  induction l with
  | nil => rfl
  | cons hd tl ih =>
      rw [List.filterMap_cons, h hd (List.mem_cons_self hd tl), List.map_cons,
        ih (fun a ha => h a (List.mem_cons_of_mem hd ha))]

theorem createProcessingChunks_ne_nil (lines : List String) (n : Nat)
    (hne : lines ≠ []) : createProcessingChunks lines n ≠ [] := by
  unfold createProcessingChunks
  rcases hn : n with _ | m
  · simp
  · rw [if_neg (by omega)]
    rcases lines with _ | ⟨a, rest⟩
    · exact absurd rfl hne
    · simp [createProcessingChunksGo]

/-- C7: when a document is chunked and every chunk's analyzer call settles
within its time slice, the run resolves with each chunk's findings
re-based by the cumulative line count of the preceding chunks,
concatenated and sorted by line ascending. -/
theorem processWithKuromojiOptimization_chunk_merge
    (content : List String) (strategy : ProcessingStrategy) (n : Nat)
    (tf : List String → Nat) (vf : List String → LintResult)
    (hbig : 1000 ≤ content.length)
    (hchunk : strategy.chunkSize = some n)
    (hin : ∀ chunk ∈ createProcessingChunks content n,
      tf chunk * (createProcessingChunks content n).length ≤
        strategy.processingTimeout) :
    ∃ fp, (processWithKuromojiOptimization content
        (fun c => .settles (tf c) (vf c)) strategy).1 =
      .ok ⟨specChunkRebase ((createProcessingChunks content n).map
            (fun c => ((vf c).messages, c.length))), fp⟩ := by
  have hne : createProcessingChunks content n ≠ [] :=
    createProcessingChunks_ne_nil content n (by
      intro h
      rw [h] at hbig
      simp at hbig)
  rcases hc : createProcessingChunks content n with _ | ⟨c0, cs⟩
  · exact absurd hc hne
  refine ⟨some ((vf c0).filePath.getD ""), ?_⟩
  have hres : ((c0 :: cs).map (fun chunk => (chunk, chunk.length))).filterMap
      (chunkAttempt (fun c => .settles (tf c) (vf c)) strategy.processingTimeout
        (((c0 :: cs).map (fun chunk => (chunk, chunk.length))).length)) =
      (c0 :: cs).map (fun c => (vf c, c.length)) := by
    have hsome : ∀ a ∈ (c0 :: cs).map (fun chunk => (chunk, chunk.length)),
        chunkAttempt (fun c => .settles (tf c) (vf c)) strategy.processingTimeout
            (((c0 :: cs).map (fun chunk => (chunk, chunk.length))).length) a =
          some ((fun cd => (vf cd.1, cd.2)) a) := by
      intro a ha
      rcases List.mem_map.mp ha with ⟨chunk, hmem, rfl⟩
      have hle := hin chunk (hc ▸ hmem)
      rw [hc] at hle
      simp only [chunkAttempt, List.length_map]
      rw [if_neg (by omega)]
    rw [filterMap_eq_map_of_some _ _ _ hsome, List.map_map]
    rfl
  simp only [processWithKuromojiOptimization, hchunk]
  rw [if_neg (by omega), hc, hres]
  simp only [mergeChunkResults]
  rw [specChunkRebase_eq_concat]
  have hfold := mergeChunkStep_foldl ((c0 :: cs).map (fun c => (vf c, c.length))) [] 0
  rw [List.map_map] at hfold
  simp only [hfold, List.nil_append]
  rfl

/-- Unfolding step of the chunking loop on a replicated document. -/
theorem createProcessingChunksGo_replicate_succ (fuel m : Nat) (x : String) :
    createProcessingChunksGo 1000 (fuel + 1) (List.replicate (m + 1) x) =
      List.replicate (min 1000 (m + 1)) x ::
        createProcessingChunksGo 1000 fuel (List.replicate (m + 1 - 1000) x) := by
  have h0 : createProcessingChunksGo 1000 (fuel + 1) (List.replicate (m + 1) x) =
      (List.replicate (m + 1) x).take 1000 ::
        createProcessingChunksGo 1000 fuel ((List.replicate (m + 1) x).drop 1000) := rfl
  rw [h0, List.take_replicate, List.drop_replicate]

theorem createProcessingChunks_replicate_2500 :
    createProcessingChunks (List.replicate 2500 "x") 1000 =
      [List.replicate 1000 "x", List.replicate 1000 "x", List.replicate 500 "x"] := by
  unfold createProcessingChunks
  rw [if_neg (by norm_num), List.length_replicate]
  rw [show (2500 : Nat) = 2499 + 1 from rfl, createProcessingChunksGo_replicate_succ]
  norm_num
  rw [show (2499 : Nat) = 2498 + 1 from rfl, show (1500 : Nat) = 1499 + 1 from rfl,
    createProcessingChunksGo_replicate_succ]
  norm_num
  rw [show (2498 : Nat) = 2497 + 1 from rfl, show (500 : Nat) = 499 + 1 from rfl,
    createProcessingChunksGo_replicate_succ]
  norm_num
  rfl

/-- C7 witness: the specification's synthetic test — an analyzer that
reports line 1 of whatever it receives, on a 2500-line document with
chunk size 1000, yields findings at lines 1, 1001 and 2001. -/
theorem processWithKuromojiOptimization_chunk_merge_witness :
    ((1000 ≤ (List.replicate 2500 "x" : List String).length ∧
        (⟨some 5000, 30000, some 1000⟩ : ProcessingStrategy).chunkSize = some 1000 ∧
        ∀ chunk ∈ createProcessingChunks (List.replicate 2500 "x") 1000,
          (fun _ => 0 : List String → Nat) chunk *
              (createProcessingChunks (List.replicate 2500 "x") 1000).length ≤
            (⟨some 5000, 30000, some 1000⟩ : ProcessingStrategy).processingTimeout) ∧
      ∃ fp, (processWithKuromojiOptimization (List.replicate 2500 "x")
          (fun c => .settles ((fun _ => 0 : List String → Nat) c)
            ((fun _ => ⟨[{ line := 1 }], some "f.md"⟩ :
                List String → LintResult) c))
          ⟨some 5000, 30000, some 1000⟩).1 =
        .ok ⟨specChunkRebase ((createProcessingChunks (List.replicate 2500 "x") 1000).map
              (fun c => (((fun _ => ⟨[{ line := 1 }], some "f.md"⟩ :
                  List String → LintResult) c).messages, c.length))), fp⟩) ∧
    ((processWithKuromojiOptimization (List.replicate 2500 "x")
        (fun c => .settles ((fun _ => 0 : List String → Nat) c)
          ((fun _ => ⟨[{ line := 1 }], some "f.md"⟩ :
              List String → LintResult) c))
        ⟨some 5000, 30000, some 1000⟩).1 : RunOutcome) =
      .ok ⟨[{ line := 1 }, { line := 1001 }, { line := 2001 }], some "f.md"⟩ := by
  refine ⟨⟨⟨by simp, rfl, by simp⟩, ?_⟩, ?_⟩
  · exact processWithKuromojiOptimization_chunk_merge (List.replicate 2500 "x")
      ⟨some 5000, 30000, some 1000⟩ 1000 (fun _ => 0)
      (fun _ => ⟨[{ line := 1 }], some "f.md"⟩) (by simp) rfl (by simp)
  · simp only [processWithKuromojiOptimization, createProcessingChunks_replicate_2500]
    rw [if_neg (by simp)]
    decide

/-- C1 counterexample: a 60-line document with two changed regions
`[0,5]` and `[15,25]`; the analyzer reports a finding at line 8 of the
17-line extracted text, which truly sits at line 17 of the new text
(position 2 of the second region, `15 + 2`), but the source's adjustment
compares the position against each region's own length and returns
`15 + 8 = 23`. -/
theorem differential_multi_region_remap_counterexample :
    (processChangedRegionsOnly
        (some ⟨["a"] ++ List.replicate 59 "s", []⟩)
        (["b"] ++ List.replicate 19 "s" ++ ["c"] ++ List.replicate 39 "s")
        (fun _ => [{ line := 8 }])).messages ≠
      specDifferentialMerge
        (["b"] ++ List.replicate 19 "s" ++ ["c"] ++ List.replicate 39 "s")
        []
        ((fun _ => [{ line := 8 }]) (extractRegionContent
          (["b"] ++ List.replicate 19 "s" ++ ["c"] ++ List.replicate 39 "s")
          (findChangedRegions (["a"] ++ List.replicate 59 "s")
            (["b"] ++ List.replicate 19 "s" ++ ["c"] ++ List.replicate 39 "s"))))
        (findChangedRegions (["a"] ++ List.replicate 59 "s")
          (["b"] ++ List.replicate 19 "s" ++ ["c"] ++ List.replicate 39 "s")) := by
  decide

/-- C1 amended: when the diff produces a single changed region, the
differential result is exactly the cached findings outside the region
plus the analyzer's findings on the extracted text shifted by the
region's start offset (with `endLine` collapsed to the adjusted start
line), sorted by line ascending. -/
theorem processChangedRegionsOnly_single_region
    (c : CachedResult) (newContent : List String)
    (lint : List String → List TextlintMessage) (r : Region)
    (hfind : findChangedRegions c.content newContent = [r])
    (hmin : ¬(newContent.length < 2 * (r.stop - r.start + 1)))
    (hlines : ∀ m ∈ lint (extractRegionContent newContent [r]),
      m.line ≤ (extractRegionContent newContent [r]).length) :
    (processChangedRegionsOnly (some c) newContent lint).messages.Perm
        (c.messages.filter (fun m => !(messageInRegion [r] m.line)) ++
          (lint (extractRegionContent newContent [r])).map (singleRegionRemap r)) ∧
      List.Pairwise (fun a b => a.line ≤ b.line)
        (processChangedRegionsOnly (some c) newContent lint).messages := by
  have hproc : (processChangedRegionsOnly (some c) newContent lint).messages =
      mergeResults c.messages
        (adjustLineNumbers (lint (extractRegionContent newContent [r])) [r]) [r] := by
    simp only [processChangedRegionsOnly, hfind]
    rw [if_neg (by simp)]
    simp only [List.foldl_cons, List.foldl_nil, Nat.zero_add]
    rw [if_neg hmin]
  have hadj : adjustLineNumbers (lint (extractRegionContent newContent [r])) [r] =
      (lint (extractRegionContent newContent [r])).map (singleRegionRemap r) := by
    unfold adjustLineNumbers
    apply List.map_congr_left
    intro m hm
    have hle := hlines m hm
    have hlen : (extractRegionContent newContent [r]).length ≤ r.stop - r.start + 1 := by
      simp only [extractRegionContent, List.map_cons, List.map_nil,
        List.flatten_cons, List.flatten_nil, List.append_nil,
        List.length_take, List.length_drop]
      omega
    have hcond : decide (m.line ≤ r.stop - r.start + 1) = true :=
      decide_eq_true (Nat.le_trans hle hlen)
    unfold adjustMessage adjustedLineFor
    have hfind1 : List.find? (fun x => decide (m.line ≤ x.stop - x.start + 1)) [r] =
        some r := List.find?_cons_of_pos _ hcond
    rw [hfind1]
    rfl
  rw [hproc, hadj]
  unfold mergeResults sortByLine
  constructor
  · exact List.perm_insertionSort _ _
  · haveI : IsTotal TextlintMessage (fun a b => a.line ≤ b.line) :=
      ⟨fun a b => Nat.le_total a.line b.line⟩
    haveI : IsTrans TextlintMessage (fun a b => a.line ≤ b.line) :=
      ⟨fun a b c h1 h2 => Nat.le_trans h1 h2⟩
    exact List.sorted_insertionSort _ _

/-- C1 amended witness: the specification's small-edit test — a 100-line
cached document with line 50 changed produces the single region
`[44, 54]` (1-based `[45, 55]`); a cached finding at line 10 survives
verbatim, the cached finding at line 50 is superseded, and the analyzer's
finding at line 3 of the extracted window lands at line `44 + 3 = 47`. -/
theorem processChangedRegionsOnly_single_region_witness :
    (findChangedRegions
        (CachedResult.content ⟨List.replicate 100 "s", [{ line := 10 }, { line := 50 }]⟩)
        (List.replicate 49 "s" ++ ["t"] ++ List.replicate 50 "s") = [⟨44, 54⟩] ∧
      ¬((List.replicate 49 "s" ++ ["t"] ++ List.replicate 50 "s" : List String).length <
          2 * ((44 : Nat) + 10 - 44 + 1)) ∧
      ∀ m ∈ (fun _ => [{ line := 3 }] : List String → List TextlintMessage)
          (extractRegionContent (List.replicate 49 "s" ++ ["t"] ++ List.replicate 50 "s")
            [⟨44, 54⟩]),
        m.line ≤ (extractRegionContent
          (List.replicate 49 "s" ++ ["t"] ++ List.replicate 50 "s") [⟨44, 54⟩]).length) ∧
    ((processChangedRegionsOnly
          (some ⟨List.replicate 100 "s", [{ line := 10 }, { line := 50 }]⟩)
          (List.replicate 49 "s" ++ ["t"] ++ List.replicate 50 "s")
          (fun _ => [{ line := 3 }])).messages.Perm
        ((CachedResult.messages
            ⟨List.replicate 100 "s", [{ line := 10 }, { line := 50 }]⟩).filter
            (fun m => !(messageInRegion [⟨44, 54⟩] m.line)) ++
          ((fun _ => [{ line := 3 }] : List String → List TextlintMessage)
              (extractRegionContent
                (List.replicate 49 "s" ++ ["t"] ++ List.replicate 50 "s") [⟨44, 54⟩])).map
            (singleRegionRemap ⟨44, 54⟩)) ∧
      List.Pairwise (fun a b => a.line ≤ b.line)
        (processChangedRegionsOnly
          (some ⟨List.replicate 100 "s", [{ line := 10 }, { line := 50 }]⟩)
          (List.replicate 49 "s" ++ ["t"] ++ List.replicate 50 "s")
          (fun _ => [{ line := 3 }])).messages) ∧
    (processChangedRegionsOnly
        (some ⟨List.replicate 100 "s", [{ line := 10 }, { line := 50 }]⟩)
        (List.replicate 49 "s" ++ ["t"] ++ List.replicate 50 "s")
        (fun _ => [{ line := 3 }])).messages =
      [{ line := 10 }, { line := 47 }] := by
  refine ⟨⟨by decide, by decide, by decide⟩, ?_, by decide⟩
  exact processChangedRegionsOnly_single_region
    ⟨List.replicate 100 "s", [{ line := 10 }, { line := 50 }]⟩
    (List.replicate 49 "s" ++ ["t"] ++ List.replicate 50 "s")
    (fun _ => [{ line := 3 }]) ⟨44, 54⟩ (by decide) (by decide) (by decide)

/-! ### Region invariants for the diff scan -/

/-- A region whose bounds are a differing line padded by exactly the
context margin: the start is some covered diff index minus the margin
(clamped at zero by truncated subtraction) and the end is some covered
diff index plus the margin, without any clamp at the last document line. -/
def regionCoversDiff (oldLines newLines : List String) (N : Nat) (r : Region) : Prop :=
  (∃ i, diffAt oldLines newLines i ∧ r.start = i - N ∧ i ≤ r.stop) ∧
  (∃ j, diffAt oldLines newLines j ∧ r.stop = j + N ∧ r.start ≤ j)

theorem mergeOverlappingRegionsAux_chain :
    ∀ (rest : List Region) (last : Region) (acc : List Region),
      List.Chain' (fun a b => a.stop < b.start) (acc.reverse ++ [last]) →
      List.Chain' (fun a b => a.stop < b.start) (mergeOverlappingRegionsAux last acc rest) := by
  intro rest
  induction rest with
  | nil =>
      intro last acc h
      unfold mergeOverlappingRegionsAux
      rw [List.reverse_cons]
      exact h
  | cons current rest ih =>
      intro last acc h
      unfold mergeOverlappingRegionsAux
      by_cases hm : current.start ≤ last.stop
      · rw [if_pos hm]
        apply ih
        rw [List.chain'_append] at h ⊢
        refine ⟨h.1, List.chain'_singleton _, ?_⟩
        intro x hx y hy
        rw [List.head?_cons, Option.mem_some_iff] at hy
        subst hy
        exact h.2.2 x hx last (by rw [List.head?_cons, Option.mem_some_iff])
      · rw [if_neg hm]
        apply ih
        rw [List.reverse_cons]
        refine List.Chain'.append h (List.chain'_singleton _) ?_
        intro x hx y hy
        rw [List.getLast?_concat, Option.mem_some_iff] at hx
        rw [List.head?_cons, Option.mem_some_iff] at hy
        subst hx
        subst hy
        exact Nat.lt_of_not_le hm

theorem mergeOverlappingRegions_chain (l : List Region) :
    List.Chain' (fun a b => a.stop < b.start) (mergeOverlappingRegions l) := by
  cases l with
  | nil => exact List.chain'_nil
  | cons r rest =>
      exact mergeOverlappingRegionsAux_chain rest r []
        (by simp)

theorem mergeOverlappingRegionsAux_good (oldLines newLines : List String) (N : Nat) :
    ∀ (rest : List Region) (last : Region) (acc : List Region),
      regionCoversDiff oldLines newLines N last →
      (∀ r ∈ acc, regionCoversDiff oldLines newLines N r) →
      (∀ r ∈ rest, regionCoversDiff oldLines newLines N r) →
      (∀ r ∈ rest, last.start ≤ r.start) →
      List.Pairwise (fun a b => a.start ≤ b.start) rest →
      ∀ r ∈ mergeOverlappingRegionsAux last acc rest,
        regionCoversDiff oldLines newLines N r := by
  intro rest
  induction rest with
  | nil =>
      intro last acc hlast hacc _ _ _ r hr
      unfold mergeOverlappingRegionsAux at hr
      rw [List.mem_reverse] at hr
      rcases List.mem_cons.mp hr with hr1 | hr1
      · exact hr1 ▸ hlast
      · exact hacc r hr1
  | cons current rest ih =>
      intro last acc hlast hacc hrest hstart hpw r hr
      unfold mergeOverlappingRegionsAux at hr
      by_cases hm : current.start ≤ last.stop
      · rw [if_pos hm] at hr
        refine ih ⟨last.start, max last.stop current.stop⟩ acc ?_ hacc
          (fun x hx => hrest x (List.mem_cons_of_mem _ hx))
          (fun x hx => hstart x (List.mem_cons_of_mem _ hx))
          (List.pairwise_cons.mp hpw).2 r hr
        obtain ⟨⟨i, hdi, hsi, hii⟩, ⟨j, hdj, hsj, hij⟩⟩ := hlast
        obtain ⟨-, ⟨jc, hdjc, hsjc, hijc⟩⟩ := hrest current (List.mem_cons_self _ _)
        constructor
        · exact ⟨i, hdi, hsi, Nat.le_trans hii (Nat.le_max_left _ _)⟩
        · rcases Nat.le_total current.stop last.stop with hcl | hlc
          · exact ⟨j, hdj, by rw [Nat.max_eq_left hcl]; exact hsj, hij⟩
          · refine ⟨jc, hdjc, by rw [Nat.max_eq_right hlc]; exact hsjc, ?_⟩
            exact Nat.le_trans (hstart current (List.mem_cons_self _ _)) hijc
      · rw [if_neg hm] at hr
        refine ih current (last :: acc) (hrest current (List.mem_cons_self _ _)) ?_
          (fun x hx => hrest x (List.mem_cons_of_mem _ hx))
          (fun x hx => (List.pairwise_cons.mp hpw).1 x hx)
          (List.pairwise_cons.mp hpw).2 r hr
        intro x hx
        rcases List.mem_cons.mp hx with hx | hx
        · exact hx ▸ hlast
        · exact hacc x hx

theorem mergeOverlappingRegions_good (oldLines newLines : List String) (N : Nat)
    (l : List Region)
    (hgood : ∀ r ∈ l, regionCoversDiff oldLines newLines N r)
    (hpw : List.Pairwise (fun a b => a.start ≤ b.start) l) :
    ∀ r ∈ mergeOverlappingRegions l, regionCoversDiff oldLines newLines N r := by
  cases l with
  | nil => intro r hr; cases hr
  | cons a rest =>
      exact mergeOverlappingRegionsAux_good oldLines newLines N rest a []
        (hgood a (List.mem_cons_self _ _))
        (fun x hx => absurd hx (List.not_mem_nil x))
        (fun x hx => hgood x (List.mem_cons_of_mem _ hx))
        (fun x hx => (List.pairwise_cons.mp hpw).1 x hx)
        (List.pairwise_cons.mp hpw).2

/-- Bounded variant of `regionCoversDiff` used as the scan-loop
invariant: the witnessing diff indices lie below the number of processed
loop iterations. -/
def regionGoodUpTo (oldLines newLines : List String) (N n : Nat) (r : Region) : Prop :=
  (∃ i, i < n ∧ diffAt oldLines newLines i ∧ r.start = i - N ∧ i ≤ r.stop) ∧
  (∃ j, j < n ∧ diffAt oldLines newLines j ∧ r.stop = j + N ∧ r.start ≤ j)

theorem regionGoodUpTo_mono {oldLines newLines : List String} {N n : Nat} {r : Region}
    (h : regionGoodUpTo oldLines newLines N n r) :
    regionGoodUpTo oldLines newLines N (n + 1) r := by
  obtain ⟨⟨i, hi, hdi, hsi, hii⟩, ⟨j, hj, hdj, hsj, hjj⟩⟩ := h
  exact ⟨⟨i, Nat.lt_succ_of_lt hi, hdi, hsi, hii⟩, ⟨j, Nat.lt_succ_of_lt hj, hdj, hsj, hjj⟩⟩

theorem regionGoodUpTo_covers {oldLines newLines : List String} {N n : Nat} {r : Region}
    (h : regionGoodUpTo oldLines newLines N n r) :
    regionCoversDiff oldLines newLines N r := by
  obtain ⟨⟨i, _, hdi, hsi, hii⟩, ⟨j, _, hdj, hsj, hjj⟩⟩ := h
  exact ⟨⟨i, hdi, hsi, hii⟩, ⟨j, hdj, hsj, hjj⟩⟩

theorem findChangedRegionsStep_inv (oldLines newLines : List String) (N n : Nat)
    (cur : Option Region) (acc : List Region)
    (hgood : ∀ r ∈ acc ++ cur.toList, regionGoodUpTo oldLines newLines N n r)
    (hpw : List.Pairwise (fun a b => a.start ≤ b.start) (acc ++ cur.toList)) :
    (∀ r ∈ (findChangedRegionsStep oldLines newLines N (cur, acc) n).2 ++
        (findChangedRegionsStep oldLines newLines N (cur, acc) n).1.toList,
      regionGoodUpTo oldLines newLines N (n + 1) r) ∧
    List.Pairwise (fun a b => a.start ≤ b.start)
      ((findChangedRegionsStep oldLines newLines N (cur, acc) n).2 ++
        (findChangedRegionsStep oldLines newLines N (cur, acc) n).1.toList) := by
  by_cases hd : diffAt oldLines newLines n
  · cases cur with
    | none =>
        simp only [findChangedRegionsStep, if_pos hd]
        simp only [Option.toList_none, List.append_nil] at hgood hpw
        simp only [Option.toList_some]
        constructor
        · intro r hr
          rcases List.mem_append.mp hr with h1 | h1
          · exact regionGoodUpTo_mono (hgood r h1)
          · rw [List.mem_singleton] at h1
            subst h1
            exact ⟨⟨n, Nat.lt_succ_self n, hd, rfl, Nat.le_add_right n N⟩,
                   ⟨n, Nat.lt_succ_self n, hd, rfl, Nat.sub_le n N⟩⟩
        · rw [List.pairwise_append]
          refine ⟨hpw, List.pairwise_singleton _ _, ?_⟩
          intro a ha b hb
          rw [List.mem_singleton] at hb
          subst hb
          obtain ⟨⟨i, hi, _, hsi, _⟩, -⟩ := hgood a ha
          rw [hsi]
          exact Nat.sub_le_sub_right (Nat.le_of_lt hi) N
    | some c =>
        simp only [findChangedRegionsStep, if_pos hd]
        simp only [Option.toList_some] at hgood hpw
        simp only [Option.toList_some]
        obtain ⟨⟨i, hi, hdi, hsi, hic⟩, ⟨j, hj, hdj, hsj, hjc⟩⟩ :=
          hgood c (List.mem_append.mpr (Or.inr (List.mem_singleton.mpr rfl)))
        constructor
        · intro r hr
          rcases List.mem_append.mp hr with h1 | h1
          · exact regionGoodUpTo_mono
              (hgood r (List.mem_append.mpr (Or.inl h1)))
          · rw [List.mem_singleton] at h1
            subst h1
            refine ⟨⟨i, Nat.lt_succ_of_lt hi, hdi, hsi, ?_⟩,
                    ⟨n, Nat.lt_succ_self n, hd, rfl, ?_⟩⟩
            · exact Nat.le_trans (Nat.le_of_lt hi) (Nat.le_add_right n N)
            · show c.start ≤ n
              omega
        · rw [List.pairwise_append] at hpw ⊢
          refine ⟨hpw.1, List.pairwise_singleton _ _, ?_⟩
          intro a ha b hb
          rw [List.mem_singleton] at hb
          subst hb
          exact hpw.2.2 a ha c (List.mem_singleton.mpr rfl)
  · cases cur with
    | none =>
        simp only [findChangedRegionsStep, if_neg hd]
        simp only [Option.toList_none, List.append_nil] at hgood hpw ⊢
        exact ⟨fun r hr => regionGoodUpTo_mono (hgood r hr), hpw⟩
    | some c =>
        by_cases hlt : c.stop < n
        · simp only [findChangedRegionsStep, if_neg hd, if_pos hlt]
          simp only [Option.toList_some] at hgood hpw
          simp only [Option.toList_none, List.append_nil]
          exact ⟨fun r hr => regionGoodUpTo_mono (hgood r hr), hpw⟩
        · simp only [findChangedRegionsStep, if_neg hd, if_neg hlt]
          simp only [Option.toList_some] at hgood hpw ⊢
          exact ⟨fun r hr => regionGoodUpTo_mono (hgood r hr), hpw⟩

theorem findChangedRegions_scan_inv (oldLines newLines : List String) (N : Nat) :
    ∀ n,
      (∀ r ∈ ((List.range n).foldl (findChangedRegionsStep oldLines newLines N)
            (none, [])).2 ++
          ((List.range n).foldl (findChangedRegionsStep oldLines newLines N)
            (none, [])).1.toList,
        regionGoodUpTo oldLines newLines N n r) ∧
      List.Pairwise (fun a b => a.start ≤ b.start)
        (((List.range n).foldl (findChangedRegionsStep oldLines newLines N)
            (none, [])).2 ++
          ((List.range n).foldl (findChangedRegionsStep oldLines newLines N)
            (none, [])).1.toList) := by
  intro n
  induction n with
  | zero =>
      constructor
      · intro r hr
        simp [List.range_zero] at hr
      · simp [List.range_zero]
  | succ n ih =>
      rw [List.range_succ, List.foldl_append, List.foldl_cons, List.foldl_nil]
      obtain ⟨hg, hp⟩ := ih
      rcases hst : (List.range n).foldl (findChangedRegionsStep oldLines newLines N)
          (none, []) with ⟨cur, acc⟩
      rw [hst] at hg hp
      exact findChangedRegionsStep_inv oldLines newLines N n cur acc hg hp

/-- C2 counterexample: twelve-line documents differing at lines 0 and 11
produce the regions `[0,5]` and `[6,16]`.  The second region's end 16 lies
beyond the last line index 11, so region ends are not clamped to document
bounds; and the two regions are adjacent (`6 = 5 + 1`) yet left unmerged,
so the final list is not a maximal run list. -/
theorem findChangedRegions_unclamped_adjacent_counterexample :
    findChangedRegions (["a"] ++ List.replicate 11 "s")
        (["b"] ++ List.replicate 10 "s" ++ ["c"]) 5 = [⟨0, 5⟩, ⟨6, 16⟩] ∧
      (["b"] ++ List.replicate 10 "s" ++ ["c"] : List String).length = 12 ∧
      ¬((16 : Nat) ≤ 12 - 1) ∧
      (6 : Nat) = 5 + 1 := by
  decide

/-- C2 amended: every region returned by `findChangedRegions` has its
start equal to a covered differing line minus the context margin (clamped
at zero by the truncated subtraction) and its end equal to a covered
differing line plus the margin, with no clamp at the document's last
line; and the final list is strictly ordered with `prev.stop < next.start`
for consecutive regions — regions never overlap, but regions separated by
a gap of exactly one line are not merged. -/
theorem findChangedRegions_covers_and_disjoint
    (oldLines newLines : List String) (N : Nat) :
    (∀ r ∈ findChangedRegions oldLines newLines N,
      regionCoversDiff oldLines newLines N r) ∧
    List.Chain' (fun a b => a.stop < b.start)
      (findChangedRegions oldLines newLines N) := by
  constructor
  · intro r hr
    simp only [findChangedRegions] at hr
    have h := findChangedRegions_scan_inv oldLines newLines N
      (max oldLines.length newLines.length)
    exact mergeOverlappingRegions_good oldLines newLines N _
      (fun x hx => regionGoodUpTo_covers (h.1 x hx)) h.2 r hr
  · simp only [findChangedRegions]
    exact mergeOverlappingRegions_chain _

/-- C2 amended witness: at the twelve-line documents of the
counterexample, the region `⟨6, 16⟩` covers the diff at line 11 with
exact padding, and the returned list is strictly ordered. -/
theorem findChangedRegions_covers_and_disjoint_witness :
    ((⟨6, 16⟩ : Region) ∈ findChangedRegions (["a"] ++ List.replicate 11 "s")
        (["b"] ++ List.replicate 10 "s" ++ ["c"]) 5 ∧
      regionCoversDiff (["a"] ++ List.replicate 11 "s")
        (["b"] ++ List.replicate 10 "s" ++ ["c"]) 5 ⟨6, 16⟩) ∧
    List.Chain' (fun a b => a.stop < b.start)
      (findChangedRegions (["a"] ++ List.replicate 11 "s")
        (["b"] ++ List.replicate 10 "s" ++ ["c"]) 5) := by
  refine ⟨⟨by decide, ?_⟩, ?_⟩
  · exact (findChangedRegions_covers_and_disjoint (["a"] ++ List.replicate 11 "s")
      (["b"] ++ List.replicate 10 "s" ++ ["c"]) 5).1 ⟨6, 16⟩ (by decide)
  · exact (findChangedRegions_covers_and_disjoint (["a"] ++ List.replicate 11 "s")
      (["b"] ++ List.replicate 10 "s" ++ ["c"]) 5).2
